import Mathlib

/-!
Shallow embedding of the core of `src/streamlit_app.py` (a pandas/streamlit
sales dashboard): the loader's month-bucket derivation (lines 21-26), the
sidebar option lists (lines 36-45), the date-range bounds (line 48), the
sequential filter pipeline (lines 52-60), the three KPI scalars
(lines 67-69), and the four `groupby` aggregations (lines 99, 111, 119, 132).

Dates are modelled as (year, month, day) triples compared chronologically
(lexicographically), numeric columns as rationals, and a pandas `DataFrame`
as a list of rows.  Strings are compared by code point, exactly as Python's
`sorted` compares `str` values.  `NaN` produced by `mean()` on an empty
column is modelled as `Option.none`.  A pandas `groupby(keys)[col].agg(...)`
with the default `sort=True` yields one output row per distinct key
combination present in the input, sorted ascending by key;
`sortDedup`-based grouping below reproduces exactly that.
-/

/-- A calendar date as stored in the `Invoice Date` column after
`pd.to_datetime` (line 24). -/
structure Date where
  year : Nat
  month : Nat
  day : Nat
deriving DecidableEq, Repr

/-- Chronological (lexicographic year, month, day) comparison of dates,
the order `pd.Timestamp` comparisons use. -/
def dateLe (a b : Date) : Bool :=
  if a.year = b.year then
    if a.month = b.month then decide (a.day ≤ b.day)
    else decide (a.month < b.month)
  else decide (a.year < b.year)

theorem dateLe_refl (a : Date) : dateLe a a = true := by
  simp [dateLe]

theorem dateLe_total (a b : Date) : dateLe a b = true ∨ dateLe b a = true := by
  simp only [dateLe]
  split_ifs <;> simp <;> omega

theorem dateLe_trans (a b c : Date) (h1 : dateLe a b = true) (h2 : dateLe b c = true) :
    dateLe a c = true := by
  simp only [dateLe] at h1 h2 ⊢
  split_ifs at h1 h2 ⊢ <;> simp_all <;> omega

theorem dateLe_antisymm (a b : Date) (h1 : dateLe a b = true) (h2 : dateLe b a = true) :
    a = b := by
  simp only [dateLe] at h1 h2
  cases a; cases b
  simp_all
  split_ifs at h1 h2 <;> simp_all <;> omega

/-- Code-point lexicographic comparison of character lists: the order
Python uses to compare `str` values. -/
def charListLe : List Char → List Char → Bool
  | [], _ => true
  | _ :: _, [] => false
  | a :: as, b :: bs =>
    if a.toNat = b.toNat then charListLe as bs
    else decide (a.toNat < b.toNat)

theorem char_eq_of_toNat_eq {a b : Char} (h : a.toNat = b.toNat) : a = b := by
  unfold Char.toNat at h
  exact Char.ext (UInt32.ext h)

theorem charListLe_refl (l : List Char) : charListLe l l = true := by
  induction l with
  | nil => rfl
  | cons a as ih => simp [charListLe, ih]

theorem charListLe_total (l1 l2 : List Char) :
    charListLe l1 l2 = true ∨ charListLe l2 l1 = true := by
  induction l1 generalizing l2 with
  | nil => left; rfl
  | cons a as ih =>
    cases l2 with
    | nil => right; rfl
    | cons b bs =>
      simp only [charListLe]
      rcases Nat.lt_trichotomy a.toNat b.toNat with h | h | h
      · left; simp [h, Nat.ne_of_lt h]
      · simpa [h] using ih bs
      · right; simp [h, Nat.ne_of_lt h, (Nat.ne_of_lt h).symm]

theorem charListLe_trans (l1 l2 l3 : List Char) (h1 : charListLe l1 l2 = true)
    (h2 : charListLe l2 l3 = true) : charListLe l1 l3 = true := by
  induction l1 generalizing l2 l3 with
  | nil => rfl
  | cons a as ih =>
    cases l2 with
    | nil => simp [charListLe] at h1
    | cons b bs =>
      cases l3 with
      | nil => simp [charListLe] at h2
      | cons c cs =>
        simp only [charListLe] at h1 h2 ⊢
        by_cases hab : a.toNat = b.toNat <;> by_cases hbc : b.toNat = c.toNat
        · rw [if_pos hab] at h1
          rw [if_pos hbc] at h2
          rw [if_pos (hab.trans hbc)]
          exact ih bs cs h1 h2
        · rw [if_neg hbc] at h2
          simp only [decide_eq_true_eq] at h2
          have hlt : a.toNat < c.toNat := by omega
          simp [show a.toNat ≠ c.toNat by omega, hlt]
        · rw [if_neg hab] at h1
          simp only [decide_eq_true_eq] at h1
          have hlt : a.toNat < c.toNat := by omega
          simp [show a.toNat ≠ c.toNat by omega, hlt]
        · rw [if_neg hab] at h1
          rw [if_neg hbc] at h2
          simp only [decide_eq_true_eq] at h1 h2
          have hlt : a.toNat < c.toNat := by omega
          simp [show a.toNat ≠ c.toNat by omega, hlt]

theorem charListLe_antisymm (l1 l2 : List Char) (h1 : charListLe l1 l2 = true)
    (h2 : charListLe l2 l1 = true) : l1 = l2 := by
  induction l1 generalizing l2 with
  | nil =>
    cases l2 with
    | nil => rfl
    | cons b bs => simp [charListLe] at h2
  | cons a as ih =>
    cases l2 with
    | nil => simp [charListLe] at h1
    | cons b bs =>
      simp only [charListLe] at h1 h2
      split_ifs at h1 h2 with hab hba
      · exact congrArg₂ List.cons (char_eq_of_toNat_eq hab) (ih bs h1 h2)
      · omega
      · omega
      · simp at h1 h2; omega

/-- Python's `str` ordering (code-point lexicographic), used by `sorted`. -/
def strLe (a b : String) : Bool := charListLe a.data b.data

theorem strLe_refl (a : String) : strLe a a = true := charListLe_refl a.data

theorem strLe_total (a b : String) : strLe a b = true ∨ strLe b a = true :=
  charListLe_total a.data b.data

theorem strLe_trans (a b c : String) (h1 : strLe a b = true) (h2 : strLe b c = true) :
    strLe a c = true :=
  charListLe_trans a.data b.data c.data h1 h2

theorem strLe_antisymm (a b : String) (h1 : strLe a b = true) (h2 : strLe b a = true) :
    a = b :=
  String.ext (charListLe_antisymm a.data b.data h1 h2)

/-- Lexicographic comparison of pairs from comparisons of the components:
the order pandas sorts a two-column group key by. -/
def pairLe {α β : Type} [DecidableEq α] (leA : α → α → Bool) (leB : β → β → Bool)
    (x y : α × β) : Bool :=
  if x.1 = y.1 then leB x.2 y.2 else leA x.1 y.1

theorem pairLe_refl {α β : Type} [DecidableEq α] (leA : α → α → Bool) (leB : β → β → Bool)
    (hB : ∀ a, leB a a = true) (x : α × β) : pairLe leA leB x x = true := by
  simp [pairLe, hB]

theorem pairLe_total {α β : Type} [DecidableEq α] (leA : α → α → Bool) (leB : β → β → Bool)
    (hA : ∀ a b, leA a b = true ∨ leA b a = true)
    (hB : ∀ a b, leB a b = true ∨ leB b a = true)
    (x y : α × β) : pairLe leA leB x y = true ∨ pairLe leA leB y x = true := by
  by_cases h : x.1 = y.1
  · simp [pairLe, h]
    exact hB x.2 y.2
  · simp [pairLe, h, Ne.symm h]
    exact hA x.1 y.1

theorem pairLe_trans {α β : Type} [DecidableEq α] (leA : α → α → Bool) (leB : β → β → Bool)
    (hAanti : ∀ a b, leA a b = true → leA b a = true → a = b)
    (hAtrans : ∀ a b c, leA a b = true → leA b c = true → leA a c = true)
    (hBtrans : ∀ a b c, leB a b = true → leB b c = true → leB a c = true)
    (x y z : α × β) (h1 : pairLe leA leB x y = true) (h2 : pairLe leA leB y z = true) :
    pairLe leA leB x z = true := by
  by_cases hxy : x.1 = y.1 <;> by_cases hyz : y.1 = z.1
  · simp only [pairLe, hxy, hyz, if_pos rfl] at h1 h2
    simp only [pairLe, hxy.trans hyz, if_pos rfl]
    simp_all
    exact hBtrans _ _ _ h1 h2
  · simp only [pairLe, hxy, hyz] at h1 h2
    simp_all [pairLe, hxy]
  · simp only [pairLe, hxy, hyz] at h1 h2
    simp_all [pairLe, hyz]
  · rw [pairLe, if_neg hxy] at h1
    rw [pairLe, if_neg hyz] at h2
    have hxz : leA x.1 z.1 = true := hAtrans _ _ _ h1 h2
    by_cases h : x.1 = z.1
    · have hyx : leA y.1 x.1 = true := by rw [h]; exact h2
      exact absurd (hAanti _ _ h1 hyx) hxy
    · rw [pairLe, if_neg h]
      exact hxz

theorem pairLe_antisymm {α β : Type} [DecidableEq α] (leA : α → α → Bool) (leB : β → β → Bool)
    (hAanti : ∀ a b, leA a b = true → leA b a = true → a = b)
    (hBanti : ∀ a b, leB a b = true → leB b a = true → a = b)
    (x y : α × β) (h1 : pairLe leA leB x y = true) (h2 : pairLe leA leB y x = true) :
    x = y := by
  by_cases hxy : x.1 = y.1
  · simp only [pairLe, hxy, if_pos rfl] at h1 h2
    simp_all
    have := hBanti _ _ h1 h2
    exact Prod.ext hxy this
  · simp only [pairLe, hxy, if_neg, Ne.symm hxy] at h1 h2
    simp_all
    exact absurd (hAanti _ _ h1 h2) hxy

/-- Insert a value into a sorted duplicate-free list, keeping it sorted and
dropping the value if already present. -/
def insertSorted {α : Type} [DecidableEq α] (le : α → α → Bool) (x : α) : List α → List α
  | [] => [x]
  | y :: ys =>
    if x = y then y :: ys
    else if le x y then x :: y :: ys
    else y :: insertSorted le x ys

/-- The distinct values of a list sorted ascending by `le`: the behaviour of
Python's `sorted(series.unique().tolist())` and of pandas' sorted group
keys. -/
def sortDedup {α : Type} [DecidableEq α] (le : α → α → Bool) (l : List α) : List α :=
  l.foldr (insertSorted le) []

theorem mem_insertSorted {α : Type} [DecidableEq α] (le : α → α → Bool) (x a : α) :
    ∀ l : List α, a ∈ insertSorted le x l ↔ a = x ∨ a ∈ l := by
  intro l
  induction l with
  | nil => simp [insertSorted]
  | cons y ys ih =>
    simp only [insertSorted]
    split_ifs with h1 h2
    · subst h1; simp only [List.mem_cons]; tauto
    · simp only [List.mem_cons]
    · simp only [List.mem_cons, ih]; tauto

theorem mem_sortDedup {α : Type} [DecidableEq α] (le : α → α → Bool) (a : α) (l : List α) :
    a ∈ sortDedup le l ↔ a ∈ l := by
  induction l with
  | nil => simp [sortDedup]
  | cons y ys ih =>
    simp only [sortDedup, List.foldr_cons] at ih ⊢
    rw [mem_insertSorted, ih, List.mem_cons]

theorem pairwise_insertSorted {α : Type} [DecidableEq α] (le : α → α → Bool)
    (htot : ∀ a b, le a b = true ∨ le b a = true)
    (htrans : ∀ a b c, le a b = true → le b c = true → le a c = true)
    (x : α) (l : List α) (hl : l.Pairwise (fun a b => le a b = true)) :
    (insertSorted le x l).Pairwise (fun a b => le a b = true) := by
  induction l with
  | nil => simp [insertSorted]
  | cons y ys ih =>
    rw [List.pairwise_cons] at hl
    obtain ⟨hy, hys⟩ := hl
    simp only [insertSorted]
    split_ifs with h1 h2
    · exact List.pairwise_cons.mpr ⟨hy, hys⟩
    · refine List.pairwise_cons.mpr ⟨?_, List.pairwise_cons.mpr ⟨hy, hys⟩⟩
      intro z hz
      rcases List.mem_cons.mp hz with rfl | hz
      · exact h2
      · exact htrans x y z h2 (hy z hz)
    · refine List.pairwise_cons.mpr ⟨?_, ih hys⟩
      intro z hz
      rcases (mem_insertSorted le x z ys).mp hz with hzx | hz
      · rw [hzx]
        rcases htot x y with h | h
        · exact absurd h h2
        · exact h
      · exact hy z hz

theorem nodup_insertSorted {α : Type} [DecidableEq α] (le : α → α → Bool)
    (hanti : ∀ a b, le a b = true → le b a = true → a = b)
    (x : α) (l : List α) (hl : l.Pairwise (fun a b => le a b = true)) (hnd : l.Nodup) :
    (insertSorted le x l).Nodup := by
  induction l with
  | nil => simp [insertSorted]
  | cons y ys ih =>
    rw [List.pairwise_cons] at hl
    obtain ⟨hy, hys⟩ := hl
    rw [List.nodup_cons] at hnd
    obtain ⟨hyn, hysn⟩ := hnd
    simp only [insertSorted]
    split_ifs with h1 h2
    · exact List.nodup_cons.mpr ⟨hyn, hysn⟩
    · refine List.nodup_cons.mpr ⟨?_, List.nodup_cons.mpr ⟨hyn, hysn⟩⟩
      intro hx
      rcases List.mem_cons.mp hx with rfl | hx
      · exact h1 rfl
      · exact h1 (hanti x y h2 (hy x hx))
    · refine List.nodup_cons.mpr ⟨?_, ih hys hysn⟩
      intro hx
      rcases (mem_insertSorted le x y ys).mp hx with rfl | hx
      · exact h1 rfl
      · exact hyn hx

theorem pairwise_nodup_sortDedup {α : Type} [DecidableEq α] (le : α → α → Bool)
    (htot : ∀ a b, le a b = true ∨ le b a = true)
    (htrans : ∀ a b c, le a b = true → le b c = true → le a c = true)
    (hanti : ∀ a b, le a b = true → le b a = true → a = b)
    (l : List α) :
    (sortDedup le l).Pairwise (fun a b => le a b = true) ∧ (sortDedup le l).Nodup := by
  induction l with
  | nil => simp [sortDedup]
  | cons y ys ih =>
    obtain ⟨hp, hn⟩ := ih
    simp only [sortDedup, List.foldr_cons] at hp hn ⊢
    exact ⟨pairwise_insertSorted le htot htrans y _ hp,
      nodup_insertSorted le hanti y _ hp hn⟩

/-- One row of the loaded dataframe `df` (after `load_data`, lines 21-26):
the CSV columns State, Retailer, Sales Method, Product, Invoice Date,
Total Sales, Operating Profit, Operating Margin, plus the derived Month
column. -/
structure Row where
  state : String
  retailer : String
  salesMethod : String
  product : String
  invoiceDate : Date
  monthCol : Date
  totalSales : ℚ
  operatingProfit : ℚ
  operatingMargin : ℚ
deriving DecidableEq, Repr

/-- One row of `data_clean.csv` before `load_data` adds the Month column. -/
structure RawRow where
  state : String
  retailer : String
  salesMethod : String
  product : String
  invoiceDate : Date
  totalSales : ℚ
  operatingProfit : ℚ
  operatingMargin : ℚ
deriving DecidableEq, Repr

/-- `df["Invoice Date"].dt.to_period("M").dt.to_timestamp()` (line 25):
an invoice date truncated to the first day of its calendar month. -/
def monthBucket (d : Date) : Date := ⟨d.year, d.month, 1⟩

/-- `load_data` (lines 21-26): parse the CSV rows and derive the Month
column from the Invoice Date column. -/
def load_data (src : List RawRow) : List Row :=
  src.map (fun r =>
    { state := r.state
      retailer := r.retailer
      salesMethod := r.salesMethod
      product := r.product
      invoiceDate := r.invoiceDate
      monthCol := monthBucket r.invoiceDate
      totalSales := r.totalSales
      operatingProfit := r.operatingProfit
      operatingMargin := r.operatingMargin })

/-- `sorted(df[col].unique().tolist())` for a string column. -/
def sortedDistinct (l : List String) : List String :=
  sortDedup strLe l

/-- `states = ["All"] + sorted(df["State"].unique().tolist())` (line 36). -/
def states (df : List Row) : List String :=
  "All" :: sortedDistinct (df.map Row.state)

/-- `retailers = sorted(df["Retailer"].unique().tolist())` (line 40). -/
def retailers (df : List Row) : List String :=
  sortedDistinct (df.map Row.retailer)

/-- `methods = sorted(df["Sales Method"].unique().tolist())` (line 44). -/
def methods (df : List Row) : List String :=
  sortedDistinct (df.map Row.salesMethod)

/-- The sidebar filter selection: the chosen state (or the `"All"`
sentinel), the retailer multiselect, the sales-method multiselect, and the
inclusive date range (lines 37, 41, 45, 49). -/
structure Selection where
  state : String
  retailers : List String
  methods : List String
  dateStart : Date
  dateEnd : Date
deriving DecidableEq, Repr

/-- The filter pipeline of lines 52-60: start from `df.copy()`, keep rows
matching the selected state unless it is `"All"`, then restrict to the
selected retailers, the selected sales methods, and the inclusive date
range. -/
def filtered (df : List Row) (s : Selection) : List Row :=
  let f0 := df
  let f1 := if s.state ≠ "All" then f0.filter (fun r => decide (r.state = s.state)) else f0
  let f2 := f1.filter (fun r => decide (r.retailer ∈ s.retailers))
  let f3 := f2.filter (fun r => decide (r.salesMethod ∈ s.methods))
  f3.filter (fun r => dateLe s.dateStart r.invoiceDate && dateLe r.invoiceDate s.dateEnd)

/-- `total_sales = filtered["Total Sales"].sum()` (line 67). -/
def total_sales (subset : List Row) : ℚ :=
  (subset.map Row.totalSales).sum

/-- `total_profit = filtered["Operating Profit"].sum()` (line 68). -/
def total_profit (subset : List Row) : ℚ :=
  (subset.map Row.operatingProfit).sum

/-- Pandas `Series.mean()`: `NaN` (modelled as `none`) on an empty column,
otherwise the arithmetic mean. -/
def seriesMean (l : List ℚ) : Option ℚ :=
  if l = [] then none else some (l.sum / (l.length : ℚ))

/-- `avg_margin = filtered["Operating Margin"].mean() * 100` (line 69);
`NaN * 100` is still `NaN`. -/
def avg_margin (subset : List Row) : Option ℚ :=
  (seriesMean (subset.map Row.operatingMargin)).map (· * 100)

/-- The sorted distinct key combinations present in the subset: the group
keys of a pandas `groupby` with its default `sort=True`. -/
def groupKeys {κ : Type} [DecidableEq κ] (le : κ → κ → Bool) (keyOf : Row → κ)
    (subset : List Row) : List κ :=
  sortDedup le (subset.map keyOf)

/-- `subset.groupby(keys)[col].sum().reset_index()`: one row per distinct
key present, carrying the sum of `valOf` over the records of that group,
rows sorted ascending by key. -/
def groupSum {κ : Type} [DecidableEq κ] (le : κ → κ → Bool) (keyOf : Row → κ)
    (valOf : Row → ℚ) (subset : List Row) : List (κ × ℚ) :=
  (groupKeys le keyOf subset).map
    (fun k => (k, ((subset.filter (fun r => decide (keyOf r = k))).map valOf).sum))

/-- `subset.groupby(keys)[col].mean().reset_index()`: one row per distinct
key present, carrying the mean of `valOf` over the records of that group
(every group is nonempty by construction). -/
def groupMean {κ : Type} [DecidableEq κ] (le : κ → κ → Bool) (keyOf : Row → κ)
    (valOf : Row → ℚ) (subset : List Row) : List (κ × ℚ) :=
  (groupKeys le keyOf subset).map
    (fun k =>
      (k, (((subset.filter (fun r => decide (keyOf r = k))).map valOf).sum) /
        (((subset.filter (fun r => decide (keyOf r = k))).map valOf).length : ℚ)))

/-- `sales_method = filtered.groupby("Sales Method")["Total Sales"].sum().reset_index()`
(line 99). -/
def sales_method (subset : List Row) : List (String × ℚ) :=
  groupSum strLe Row.salesMethod Row.totalSales subset

/-- `monthly_sales = filtered.groupby(["Month", "Sales Method"])["Total Sales"].sum().reset_index()`
(line 111). -/
def monthly_sales (subset : List Row) : List ((Date × String) × ℚ) :=
  groupSum (pairLe dateLe strLe) (fun r => (r.monthCol, r.salesMethod)) Row.totalSales subset

/-- `margin = filtered.groupby("Sales Method")["Operating Margin"].mean().reset_index()`
(line 119). -/
def margin (subset : List Row) : List (String × ℚ) :=
  groupMean strLe Row.salesMethod Row.operatingMargin subset

/-- `product_sales = filtered.groupby(["Product", "Sales Method"])["Total Sales"].sum().reset_index()`
(line 132). -/
def product_sales (subset : List Row) : List ((String × String) × ℚ) :=
  groupSum (pairLe strLe strLe) (fun r => (r.product, r.salesMethod)) Row.totalSales subset

/-- `min_date = df["Invoice Date"].min()` (line 48); an arbitrary date on
an empty frame, where pandas would return `NaT`. -/
def minDate (df : List Row) : Date :=
  match df.map Row.invoiceDate with
  | [] => ⟨1970, 1, 1⟩
  | d :: ds => ds.foldl (fun a b => if dateLe a b then a else b) d

/-- `max_date = df["Invoice Date"].max()` (line 48); an arbitrary date on
an empty frame, where pandas would return `NaT`. -/
def maxDate (df : List Row) : Date :=
  match df.map Row.invoiceDate with
  | [] => ⟨1970, 1, 1⟩
  | d :: ds => ds.foldl (fun a b => if dateLe a b then b else a) d

/-- The widget defaults of lines 36-49: state `"All"`, every retailer and
every sales method selected, and the date range spanning the whole
dataset. -/
def identitySelection (df : List Row) : Selection :=
  { state := "All"
    retailers := retailers df
    methods := methods df
    dateStart := minDate df
    dateEnd := maxDate df }

theorem sum_map_add_split {κ : Type} (ks : List κ) (f g : κ → ℚ) :
    (ks.map (fun k => f k + g k)).sum = (ks.map f).sum + (ks.map g).sum := by
  induction ks with
  | nil => simp
  | cons a t ih => simp [ih]; ring

theorem sum_map_ite_zero {κ : Type} [DecidableEq κ] (ks : List κ) (x : κ) (c : ℚ)
    (hx : x ∉ ks) : (ks.map (fun k => if x = k then c else 0)).sum = 0 := by
  induction ks with
  | nil => simp
  | cons a t ih =>
    rw [List.mem_cons, not_or] at hx
    simp [hx.1, ih hx.2]

theorem sum_map_ite_single {κ : Type} [DecidableEq κ] (ks : List κ) (hnd : ks.Nodup)
    (x : κ) (hx : x ∈ ks) (c : ℚ) :
    (ks.map (fun k => if x = k then c else 0)).sum = c := by
  induction ks with
  | nil => simp at hx
  | cons a t ih =>
    rw [List.nodup_cons] at hnd
    rcases List.mem_cons.mp hx with rfl | hxt
    · simp [sum_map_ite_zero t x c hnd.1]
    · have hxa : x ≠ a := by
        intro h
        exact hnd.1 (h ▸ hxt)
      simp [hxa, ih hnd.2 hxt]

theorem partition_sum {κ : Type} [DecidableEq κ] (keyOf : Row → κ) (valOf : Row → ℚ)
    (ks : List κ) (hnd : ks.Nodup) :
    ∀ l : List Row, (∀ r ∈ l, keyOf r ∈ ks) →
      (ks.map (fun k =>
        ((l.filter (fun r => decide (keyOf r = k))).map valOf).sum)).sum =
      (l.map valOf).sum := by
  intro l
  induction l with
  | nil =>
    intro _
    simp
  | cons r t ih =>
    intro hcov
    have hterm : ∀ k ∈ ks,
        ((List.filter (fun r => decide (keyOf r = k)) (r :: t)).map valOf).sum =
        (if keyOf r = k then valOf r else 0) +
          ((t.filter (fun r => decide (keyOf r = k))).map valOf).sum := by
      intro k _
      by_cases hk : keyOf r = k
      · simp [List.filter_cons, hk]
      · simp [List.filter_cons, hk]
    rw [List.map_congr_left hterm, sum_map_add_split,
      sum_map_ite_single ks hnd (keyOf r) (hcov r (List.mem_cons_self r t)) (valOf r),
      ih (fun x hx => hcov x (List.mem_cons_of_mem r hx))]
    simp

theorem groupSum_fst {κ : Type} [DecidableEq κ] (le : κ → κ → Bool) (keyOf : Row → κ)
    (valOf : Row → ℚ) (subset : List Row) :
    (groupSum le keyOf valOf subset).map Prod.fst = groupKeys le keyOf subset := by
  simp [groupSum, List.map_map, Function.comp_def]

theorem mem_groupKeys {κ : Type} [DecidableEq κ] (le : κ → κ → Bool) (keyOf : Row → κ)
    (subset : List Row) (k : κ) :
    k ∈ groupKeys le keyOf subset ↔ k ∈ subset.map keyOf := by
  exact mem_sortDedup le k (subset.map keyOf)

theorem groupSum_snd_sum {κ : Type} [DecidableEq κ] (le : κ → κ → Bool)
    (htot : ∀ a b, le a b = true ∨ le b a = true)
    (htrans : ∀ a b c, le a b = true → le b c = true → le a c = true)
    (hanti : ∀ a b, le a b = true → le b a = true → a = b)
    (keyOf : Row → κ) (valOf : Row → ℚ) (subset : List Row) :
    ((groupSum le keyOf valOf subset).map Prod.snd).sum = (subset.map valOf).sum := by
  have hnd : (groupKeys le keyOf subset).Nodup :=
    (pairwise_nodup_sortDedup le htot htrans hanti (subset.map keyOf)).2
  have hcov : ∀ r ∈ subset, keyOf r ∈ groupKeys le keyOf subset := by
    intro r hr
    rw [mem_groupKeys]
    exact List.mem_map_of_mem keyOf hr
  have := partition_sum keyOf valOf (groupKeys le keyOf subset) hnd subset hcov
  rw [← this]
  simp [groupSum, List.map_map, Function.comp_def]

theorem foldl_pickMin_le_acc (l : List Date) (acc : Date) :
    dateLe (l.foldl (fun a b => if dateLe a b then a else b) acc) acc = true := by
  induction l generalizing acc with
  | nil => exact dateLe_refl acc
  | cons b t ih =>
    simp only [List.foldl_cons]
    by_cases h : dateLe acc b = true
    · rw [if_pos h]
      exact ih acc
    · rw [if_neg h]
      rcases dateLe_total acc b with h2 | h2
      · exact absurd h2 h
      · exact dateLe_trans _ _ _ (ih b) h2

theorem foldl_pickMin_le_mem (l : List Date) (acc x : Date) (hx : x ∈ l) :
    dateLe (l.foldl (fun a b => if dateLe a b then a else b) acc) x = true := by
  induction l generalizing acc with
  | nil => simp at hx
  | cons b t ih =>
    simp only [List.foldl_cons]
    rcases List.mem_cons.mp hx with rfl | hxt
    · by_cases h : dateLe acc x = true
      · rw [if_pos h]
        exact dateLe_trans _ _ _ (foldl_pickMin_le_acc t acc) h
      · rw [if_neg h]
        exact foldl_pickMin_le_acc t x
    · by_cases h : dateLe acc b = true
      · rw [if_pos h]
        exact ih acc hxt
      · rw [if_neg h]
        exact ih b hxt

theorem foldl_pickMax_acc_le (l : List Date) (acc : Date) :
    dateLe acc (l.foldl (fun a b => if dateLe a b then b else a) acc) = true := by
  induction l generalizing acc with
  | nil => exact dateLe_refl acc
  | cons b t ih =>
    simp only [List.foldl_cons]
    by_cases h : dateLe acc b = true
    · rw [if_pos h]
      exact dateLe_trans _ _ _ h (ih b)
    · rw [if_neg h]
      exact ih acc

theorem foldl_pickMax_mem_le (l : List Date) (acc x : Date) (hx : x ∈ l) :
    dateLe x (l.foldl (fun a b => if dateLe a b then b else a) acc) = true := by
  induction l generalizing acc with
  | nil => simp at hx
  | cons b t ih =>
    simp only [List.foldl_cons]
    rcases List.mem_cons.mp hx with rfl | hxt
    · by_cases h : dateLe acc x = true
      · rw [if_pos h]
        exact foldl_pickMax_acc_le t x
      · rw [if_neg h]
        rcases dateLe_total acc x with h2 | h2
        · exact absurd h2 h
        · exact dateLe_trans _ _ _ h2 (foldl_pickMax_acc_le t acc)
    · by_cases h : dateLe acc b = true
      · rw [if_pos h]
        exact ih b hxt
      · rw [if_neg h]
        exact ih acc hxt

theorem minDate_le (df : List Row) (r : Row) (hr : r ∈ df) :
    dateLe (minDate df) r.invoiceDate = true := by
  have hmem : r.invoiceDate ∈ df.map Row.invoiceDate := List.mem_map_of_mem _ hr
  unfold minDate
  cases hdf : df.map Row.invoiceDate with
  | nil => rw [hdf] at hmem; simp at hmem
  | cons d ds =>
    rw [hdf] at hmem
    rcases List.mem_cons.mp hmem with heq | hmem2
    · rw [heq]
      exact foldl_pickMin_le_acc ds d
    · exact foldl_pickMin_le_mem ds d r.invoiceDate hmem2

theorem le_maxDate (df : List Row) (r : Row) (hr : r ∈ df) :
    dateLe r.invoiceDate (maxDate df) = true := by
  have hmem : r.invoiceDate ∈ df.map Row.invoiceDate := List.mem_map_of_mem _ hr
  unfold maxDate
  cases hdf : df.map Row.invoiceDate with
  | nil => rw [hdf] at hmem; simp at hmem
  | cons d ds =>
    rw [hdf] at hmem
    rcases List.mem_cons.mp hmem with heq | hmem2
    · rw [heq]
      exact foldl_pickMax_acc_le ds d
    · exact foldl_pickMax_mem_le ds d r.invoiceDate hmem2

theorem groupMean_fst {κ : Type} [DecidableEq κ] (le : κ → κ → Bool) (keyOf : Row → κ)
    (valOf : Row → ℚ) (subset : List Row) :
    (groupMean le keyOf valOf subset).map Prod.fst = groupKeys le keyOf subset := by
  simp [groupMean, List.map_map, Function.comp_def]

theorem mem_filtered (df : List Row) (s : Selection) (r : Row) :
    r ∈ filtered df s ↔
      r ∈ df ∧ (s.state = "All" ∨ r.state = s.state) ∧
        r.retailer ∈ s.retailers ∧ r.salesMethod ∈ s.methods ∧
        dateLe s.dateStart r.invoiceDate = true ∧ dateLe r.invoiceDate s.dateEnd = true := by
  by_cases hAll : s.state = "All" <;>
    simp [filtered, hAll, List.mem_filter, and_assoc] <;> tauto

/-- Data of the spec's worked scenario: three records, two channels, two
months. -/
def sampleRow1 : Row :=
  ⟨"New York", "Foot Locker", "Online", "Shoes", ⟨2021, 1, 15⟩, ⟨2021, 1, 1⟩, 100, 30, 1⟩

def sampleRow2 : Row :=
  ⟨"Texas", "Walmart", "Outlet", "Socks", ⟨2021, 1, 20⟩, ⟨2021, 1, 1⟩, 50, 10, 2⟩

def sampleRow3 : Row :=
  ⟨"New York", "Foot Locker", "Online", "Shoes", ⟨2021, 2, 10⟩, ⟨2021, 2, 1⟩, 200, 80, 3⟩

def sampleDf : List Row := [sampleRow1, sampleRow2, sampleRow3]

def sampleSelection : Selection :=
  ⟨"All", ["Foot Locker", "Walmart"], ["Online", "Outlet"], ⟨2021, 1, 1⟩, ⟨2021, 12, 31⟩⟩

def emptyRetailerSelection : Selection :=
  ⟨"All", [], ["Online", "Outlet"], ⟨2021, 1, 1⟩, ⟨2021, 12, 31⟩⟩

def invertedSelection : Selection :=
  ⟨"All", ["Foot Locker", "Walmart"], ["Online", "Outlet"], ⟨2021, 12, 31⟩, ⟨2021, 1, 1⟩⟩

def sampleRaw : RawRow :=
  ⟨"New York", "Foot Locker", "Online", "Shoes", ⟨2021, 1, 15⟩, 100, 30, 1⟩

def sampleLoaded : Row :=
  ⟨"New York", "Foot Locker", "Online", "Shoes", ⟨2021, 1, 15⟩, ⟨2021, 1, 1⟩, 100, 30, 1⟩

/-- C1: a record of the dataset is in the filtered subset iff its state
matches the selection (or the selection is the `"All"` sentinel), its
retailer and sales method are selected, and its invoice date lies in the
inclusive selected date range. -/
theorem claim_C1 (df : List Row) (s : Selection) (r : Row) (hr : r ∈ df) :
    r ∈ filtered df s ↔
      (s.state = "All" ∨ r.state = s.state) ∧
        r.retailer ∈ s.retailers ∧ r.salesMethod ∈ s.methods ∧
        dateLe s.dateStart r.invoiceDate = true ∧
        dateLe r.invoiceDate s.dateEnd = true := by
  rw [mem_filtered]
  tauto

theorem claim_C1_witness :
    sampleRow2 ∈ filtered sampleDf sampleSelection ↔
      (sampleSelection.state = "All" ∨ sampleRow2.state = sampleSelection.state) ∧
        sampleRow2.retailer ∈ sampleSelection.retailers ∧
        sampleRow2.salesMethod ∈ sampleSelection.methods ∧
        dateLe sampleSelection.dateStart sampleRow2.invoiceDate = true ∧
        dateLe sampleRow2.invoiceDate sampleSelection.dateEnd = true :=
  claim_C1 sampleDf sampleSelection sampleRow2 (by decide)

/-- C2: the Total Sales KPI equals the sum of the per-channel totals of the
channel grouping, and every grouping of the dashboard (channel,
month-and-channel, margin-by-channel, product-and-channel) emits exactly
one row per distinct key combination present in the filtered subset —
no rows for absent combinations, no duplicated key. -/
theorem claim_C2 (df : List Row) (s : Selection) :
    total_sales (filtered df s) = ((sales_method (filtered df s)).map Prod.snd).sum ∧
    ((sales_method (filtered df s)).map Prod.fst).Nodup ∧
    (∀ m, m ∈ (sales_method (filtered df s)).map Prod.fst ↔
      m ∈ (filtered df s).map Row.salesMethod) ∧
    ((monthly_sales (filtered df s)).map Prod.fst).Nodup ∧
    (∀ k, k ∈ (monthly_sales (filtered df s)).map Prod.fst ↔
      k ∈ (filtered df s).map (fun r => (r.monthCol, r.salesMethod))) ∧
    ((margin (filtered df s)).map Prod.fst).Nodup ∧
    (∀ m, m ∈ (margin (filtered df s)).map Prod.fst ↔
      m ∈ (filtered df s).map Row.salesMethod) ∧
    ((product_sales (filtered df s)).map Prod.fst).Nodup ∧
    (∀ k, k ∈ (product_sales (filtered df s)).map Prod.fst ↔
      k ∈ (filtered df s).map (fun r => (r.product, r.salesMethod))) := by
  have hmTot := pairLe_total dateLe strLe dateLe_total strLe_total
  have hmTrans := pairLe_trans dateLe strLe dateLe_antisymm dateLe_trans strLe_trans
  have hmAnti := pairLe_antisymm dateLe strLe dateLe_antisymm strLe_antisymm
  have hpTot := pairLe_total strLe strLe strLe_total strLe_total
  have hpTrans := pairLe_trans strLe strLe strLe_antisymm strLe_trans strLe_trans
  have hpAnti := pairLe_antisymm strLe strLe strLe_antisymm strLe_antisymm
  refine ⟨?_, ?_, ?_, ?_, ?_, ?_, ?_, ?_, ?_⟩
  · exact (groupSum_snd_sum strLe strLe_total strLe_trans strLe_antisymm
      Row.salesMethod Row.totalSales (filtered df s)).symm
  · rw [sales_method, groupSum_fst]
    exact (pairwise_nodup_sortDedup strLe strLe_total strLe_trans strLe_antisymm _).2
  · intro m
    rw [sales_method, groupSum_fst, mem_groupKeys]
  · rw [monthly_sales, groupSum_fst]
    exact (pairwise_nodup_sortDedup _ hmTot hmTrans hmAnti _).2
  · intro k
    rw [monthly_sales, groupSum_fst, mem_groupKeys]
  · rw [margin, groupMean_fst]
    exact (pairwise_nodup_sortDedup strLe strLe_total strLe_trans strLe_antisymm _).2
  · intro m
    rw [margin, groupMean_fst, mem_groupKeys]
  · rw [product_sales, groupSum_fst]
    exact (pairwise_nodup_sortDedup _ hpTot hpTrans hpAnti _).2
  · intro k
    rw [product_sales, groupSum_fst, mem_groupKeys]

/-- C3: an empty retailer multiselect yields an empty filtered subset, and
on an empty subset the sum KPIs are 0 while the average-margin KPI is the
explicit `NaN` marker (`none`), not 0 and not an error. -/
theorem claim_C3 (df : List Row) (s : Selection) :
    (s.retailers = [] → filtered df s = []) ∧
    (filtered df s = [] →
      total_sales (filtered df s) = 0 ∧ total_profit (filtered df s) = 0 ∧
        avg_margin (filtered df s) = none) := by
  constructor
  · intro h
    simp [filtered, h]
  · intro h
    rw [h]
    refine ⟨rfl, rfl, ?_⟩
    simp [avg_margin, seriesMean]

theorem claim_C3_witness :
    filtered sampleDf emptyRetailerSelection = [] ∧
    total_sales (filtered sampleDf emptyRetailerSelection) = 0 ∧
    avg_margin (filtered sampleDf emptyRetailerSelection) = none := by
  have h := claim_C3 sampleDf emptyRetailerSelection
  have hempty := h.1 rfl
  exact ⟨hempty, (h.2 hempty).1, (h.2 hempty).2.2⟩

/-- C4: an inverted date interval (start after end) yields an empty
filtered subset rather than an error. -/
theorem claim_C4 (df : List Row) (s : Selection)
    (h : dateLe s.dateStart s.dateEnd = false) : filtered df s = [] := by
  simp only [filtered]
  rw [List.filter_eq_nil_iff]
  intro r _ hc
  rw [Bool.and_eq_true] at hc
  have htr := dateLe_trans _ _ _ hc.1 hc.2
  rw [h] at htr
  exact Bool.false_ne_true htr

theorem claim_C4_witness :
    dateLe invertedSelection.dateStart invertedSelection.dateEnd = false ∧
    filtered sampleDf invertedSelection = [] :=
  ⟨by decide, claim_C4 sampleDf invertedSelection (by decide)⟩

/-- C5: the month-and-channel grouping is sorted ascending by month bucket
with the channel as tie-break, and repeated evaluation on the same input
yields the identical output (the computation is a pure function of the
subset). -/
theorem claim_C5 (subset : List Row) :
    (monthly_sales subset).Pairwise
      (fun a b => (dateLe a.1.1 b.1.1 = true ∧ a.1.1 ≠ b.1.1) ∨
        (a.1.1 = b.1.1 ∧ strLe a.1.2 b.1.2 = true)) ∧
    monthly_sales subset = monthly_sales subset := by
  refine ⟨?_, rfl⟩
  have h := pairwise_nodup_sortDedup (pairLe dateLe strLe)
    (pairLe_total dateLe strLe dateLe_total strLe_total)
    (pairLe_trans dateLe strLe dateLe_antisymm dateLe_trans strLe_trans)
    (pairLe_antisymm dateLe strLe dateLe_antisymm strLe_antisymm)
    (subset.map (fun r => (r.monthCol, r.salesMethod)))
  have hcomb := h.1.and h.2
  rw [monthly_sales, groupSum, List.pairwise_map]
  refine hcomb.imp ?_
  intro k k' hkk
  obtain ⟨hle, hne⟩ := hkk
  by_cases hm : k.1 = k'.1
  · right
    refine ⟨hm, ?_⟩
    rw [pairLe, if_pos hm] at hle
    exact hle
  · left
    rw [pairLe, if_neg hm] at hle
    exact ⟨hle, hm⟩

/-- C6: the filter is a pure, deterministic function of the dataset and
the selection: identical arguments yield identical subsets. -/
theorem claim_C6 (df1 df2 : List Row) (s1 s2 : Selection)
    (hdf : df1 = df2) (hs : s1 = s2) : filtered df1 s1 = filtered df2 s2 := by
  rw [hdf, hs]

theorem claim_C6_witness :
    filtered sampleDf sampleSelection = filtered sampleDf sampleSelection :=
  claim_C6 sampleDf sampleDf sampleSelection sampleSelection rfl rfl

/-- C7: evaluating the filter never mutates the dataset: the result is a
sublist of the dataset it was given — the very records of `df`, unmodified
and in their original order — and `df` itself is left untouched. -/
theorem claim_C7 (df : List Row) (s : Selection) :
    List.Sublist (filtered df s) df := by
  simp only [filtered]
  have h1 : List.Sublist
      (if s.state ≠ "All" then df.filter (fun r => decide (r.state = s.state)) else df)
      df := by
    split_ifs
    · exact List.filter_sublist df
    · exact List.Sublist.refl df
  exact (List.filter_sublist _).trans
    ((List.filter_sublist _).trans ((List.filter_sublist _).trans h1))

/-- A dataset whose only state value sorts before the sentinel `"All"`
(code-point order puts `"Alabama"` before `"All"`). -/
def c8Row : Row :=
  ⟨"Alabama", "Foot Locker", "Online", "Shoes", ⟨2021, 1, 15⟩, ⟨2021, 1, 1⟩, 100, 30, 1⟩

def c8Df : List Row := [c8Row]

/-- C8 counterexample: the region option list is `["All", "Alabama"]` —
it contains the sentinel `"All"`, which is not a value of the State
dimension, and it is not sorted ascending (`"Alabama" < "All"` by code
point). -/
theorem claim_C8_counterexample :
    states c8Df = ["All", "Alabama"] ∧
    ¬ (states c8Df).Pairwise (fun a b => strLe a b = true) ∧
    "All" ∉ c8Df.map Row.state := by
  refine ⟨by decide, ?_, by decide⟩
  intro h
  have h2 := (List.pairwise_cons.mp ((by decide : states c8Df = ["All", "Alabama"]) ▸ h)).1
    "Alabama" (List.mem_singleton.mpr rfl)
  exact absurd h2 (by decide)

/-- C8 amended: the retailer and sales-method option lists are the distinct
values of their dimension sorted ascending with no duplicates; the region
option list is the `"All"` sentinel prepended to the sorted distinct state
values (so it is not itself the sorted distinct value list). -/
theorem claim_C8_amended (df : List Row) :
    (retailers df).Pairwise (fun a b => strLe a b = true) ∧
    (retailers df).Nodup ∧
    (∀ x, x ∈ retailers df ↔ x ∈ df.map Row.retailer) ∧
    (methods df).Pairwise (fun a b => strLe a b = true) ∧
    (methods df).Nodup ∧
    (∀ x, x ∈ methods df ↔ x ∈ df.map Row.salesMethod) ∧
    states df = "All" :: sortedDistinct (df.map Row.state) ∧
    (sortedDistinct (df.map Row.state)).Pairwise (fun a b => strLe a b = true) ∧
    (sortedDistinct (df.map Row.state)).Nodup ∧
    (∀ x, x ∈ sortedDistinct (df.map Row.state) ↔ x ∈ df.map Row.state) := by
  have h1 := pairwise_nodup_sortDedup strLe strLe_total strLe_trans strLe_antisymm
    (df.map Row.retailer)
  have h2 := pairwise_nodup_sortDedup strLe strLe_total strLe_trans strLe_antisymm
    (df.map Row.salesMethod)
  have h3 := pairwise_nodup_sortDedup strLe strLe_total strLe_trans strLe_antisymm
    (df.map Row.state)
  exact ⟨h1.1, h1.2, fun x => mem_sortDedup strLe x _, h2.1, h2.2,
    fun x => mem_sortDedup strLe x _, rfl, h3.1, h3.2,
    fun x => mem_sortDedup strLe x _⟩

/-- C9: every row produced by the loader carries a Month column equal to
its invoice date truncated to the first day of that date's calendar month
(same year, same month, day 1). -/
theorem claim_C9 (src : List RawRow) (row : Row) (hrow : row ∈ load_data src) :
    row.monthCol = monthBucket row.invoiceDate ∧
    row.monthCol.year = row.invoiceDate.year ∧
    row.monthCol.month = row.invoiceDate.month ∧
    row.monthCol.day = 1 := by
  simp only [load_data, List.mem_map] at hrow
  obtain ⟨r, _, rfl⟩ := hrow
  exact ⟨rfl, rfl, rfl, rfl⟩

theorem claim_C9_witness :
    sampleLoaded.monthCol = monthBucket sampleLoaded.invoiceDate ∧
    sampleLoaded.monthCol.year = sampleLoaded.invoiceDate.year ∧
    sampleLoaded.monthCol.month = sampleLoaded.invoiceDate.month ∧
    sampleLoaded.monthCol.day = 1 :=
  claim_C9 [sampleRaw] sampleLoaded (by decide)

/-- C10: the identity selection — the `"All"` state sentinel, every
distinct retailer, every distinct sales method, and the date range from
the dataset's minimum to its maximum invoice date (the widget defaults of
lines 36-49) — filters nothing: the subset is the whole dataset. -/
theorem claim_C10 (df : List Row) : filtered df (identitySelection df) = df := by
  have h2 : ∀ r ∈ df, (decide (r.retailer ∈ (identitySelection df).retailers)) = true := by
    intro r hr
    simp only [identitySelection, decide_eq_true_eq, retailers, sortedDistinct]
    rw [mem_sortDedup]
    exact List.mem_map_of_mem _ hr
  have h3 : ∀ r ∈ df, (decide (r.salesMethod ∈ (identitySelection df).methods)) = true := by
    intro r hr
    simp only [identitySelection, decide_eq_true_eq, methods, sortedDistinct]
    rw [mem_sortDedup]
    exact List.mem_map_of_mem _ hr
  have h4 : ∀ r ∈ df,
      (dateLe (identitySelection df).dateStart r.invoiceDate &&
        dateLe r.invoiceDate (identitySelection df).dateEnd) = true := by
    intro r hr
    rw [Bool.and_eq_true]
    exact ⟨minDate_le df r hr, le_maxDate df r hr⟩
  have hAll : ¬ ((identitySelection df).state ≠ "All") := by
    simp [identitySelection]
  simp only [filtered, if_neg hAll]
  rw [List.filter_eq_self.mpr h2, List.filter_eq_self.mpr h3, List.filter_eq_self.mpr h4]

example : filtered sampleDf sampleSelection = sampleDf := by decide

example : total_sales (filtered sampleDf sampleSelection) = 350 := by
  have h : filtered sampleDf sampleSelection = sampleDf := by decide
  rw [h]
  norm_num [total_sales, sampleDf, sampleRow1, sampleRow2, sampleRow3]

example : (sales_method (filtered sampleDf sampleSelection)).map Prod.fst =
    ["Online", "Outlet"] := by decide

example : (monthly_sales (filtered sampleDf sampleSelection)).map Prod.fst =
    [(⟨2021, 1, 1⟩, "Online"), (⟨2021, 1, 1⟩, "Outlet"), (⟨2021, 2, 1⟩, "Online")] := by
  decide

example : filtered sampleDf
    { sampleSelection with methods := ["Outlet"] } = [sampleRow2] := by decide
